import Mathlib

/-!
A verification development for the goini INI-configuration library
(`config.go`).  The Go code is shallowly embedded: Go strings are Lean
`String`s manipulated at the character-list level (the inputs of interest
are ASCII, where Go's byte-wise operations and the character-wise model
coincide), Go maps are association lists with first-match lookup and
overwrite-or-append insertion, the process environment is an explicit
function `String → String` (Go's `os.Getenv` returns `""` for unset
variables), and the file system is an explicit record of `stat`, read and
directory-walk operations.  For the one place where Go's map-as-reference
semantics is observable (`Merge`), entry maps live in an explicit heap and
containers hold addresses.
-/

set_option autoImplicit false

namespace Goini

/-! ## Character and string primitives (Go `strings` / `bytes` on ASCII) -/

/-- ASCII case folding of one character, the ASCII fragment of Go's
`strings.ToLower`. -/
def lowerChar (c : Char) : Char :=
  if 65 ≤ c.toNat ∧ c.toNat ≤ 90 then Char.ofNat (c.toNat + 32) else c

/-- Whitespace as recognised by Go's `unicode.IsSpace` on ASCII input. -/
def isSpaceChar (c : Char) : Bool :=
  c == ' ' || c == '\t' || c == '\n' || c == '\r' || c == '\x0b' || c == '\x0c'

/-- Drop the longest suffix whose characters satisfy `p`. -/
def dropEndWhile (p : Char → Bool) (l : List Char) : List Char :=
  (l.reverse.dropWhile p).reverse

/-- `strings.TrimSpace` on a character list. -/
def trimList (l : List Char) : List Char :=
  dropEndWhile isSpaceChar (l.dropWhile isSpaceChar)

/-- Does `pat` occur as a leading segment of `l`? (Go `strings.HasPrefix`.) -/
def leadsWith : List Char → List Char → Bool
  | [], _ => true
  | _ :: _, [] => false
  | p :: ps, c :: cs => p == c && leadsWith ps cs

/-- Split `l` at the first occurrence of `pat`, returning the pieces before
and after it (Go `strings.Index` plus slicing). `none` when `pat` does not
occur. -/
def findSplit (pat : List Char) : List Char → Option (List Char × List Char)
  | [] => if leadsWith pat [] then some ([], []) else none
  | c :: rest =>
    if leadsWith pat (c :: rest) then some ([], (c :: rest).drop pat.length)
    else
      match findSplit pat rest with
      | some (a, b) => some (c :: a, b)
      | none => none

/-- Split on every (leftmost-first) occurrence of `"::"`
(Go `strings.Split (s, "::")`), with an accumulator for the current piece. -/
def splitColAux : List Char → List Char → List (List Char)
  | [], acc => [acc.reverse]
  | [c], acc => [(c :: acc).reverse]
  | c1 :: c2 :: rest, acc =>
    if c1 = ':' ∧ c2 = ':' then acc.reverse :: splitColAux rest []
    else splitColAux (c2 :: rest) (c1 :: acc)

/-- `strings.Fields`: split on runs of whitespace, dropping empty pieces. -/
def fieldsAux : List Char → List Char → List (List Char)
  | [], acc => if acc = [] then [] else [acc.reverse]
  | c :: rest, acc =>
    if isSpaceChar c then
      if acc = [] then fieldsAux rest [] else acc.reverse :: fieldsAux rest []
    else fieldsAux rest (c :: acc)

/-- Split a character list on a separator character, keeping empty pieces. -/
def splitCharAux (sep : Char) : List Char → List Char → List (List Char)
  | [], acc => [acc.reverse]
  | c :: rest, acc =>
    if c = sep then acc.reverse :: splitCharAux sep rest []
    else splitCharAux sep rest (c :: acc)

/-- Pack a character list back into a string. -/
def strMk (l : List Char) : String := ⟨l⟩

/-- Go `strings.ToLower` (ASCII fragment). -/
def lowerS (s : String) : String := strMk (s.data.map lowerChar)

/-- Go `strings.TrimSpace`. -/
def trimS (s : String) : String := strMk (trimList s.data)

/-- Go `strings.HasPrefix s pat` (argument order: pattern first). -/
def leadsWithS (pat s : String) : Bool := leadsWith pat.data s.data

/-- Go `strings.HasSuffix s pat` (argument order: pattern first). -/
def trailsWithS (pat s : String) : Bool := leadsWith pat.data.reverse s.data.reverse

/-- Go `strings.Trim (s, "\"")`: remove every leading and trailing
double-quote character. -/
def trimQuotesS (s : String) : String :=
  strMk (dropEndWhile (fun c => c == '"') (s.data.dropWhile (fun c => c == '"')))

/-- Go `strings.SplitN (s, sep, 2)`: one piece when `sep` is absent,
otherwise the text before and after its first occurrence. -/
def splitN2S (s sep : String) : List String :=
  match findSplit sep.data s.data with
  | none => [s]
  | some (a, b) => [strMk a, strMk b]

/-- Go `strings.Contains s sub`. -/
def containsS (s sub : String) : Bool := (findSplit sub.data s.data).isSome

/-- Go `strings.Split (s, "::")`. -/
def splitColonsS (s : String) : List String :=
  (splitColAux s.data []).map strMk

/-- Go `strings.Fields`. -/
def fieldsS (s : String) : List String :=
  (fieldsAux s.data []).map strMk

/-- Split a document into its lines (Go's `bufio.ReadLine` loop; the
carriage return of a `\r\n` ending is removed later by `TrimSpace`). -/
def linesOf (s : String) : List String :=
  (splitCharAux '\n' s.data []).map strMk

/-! ## Data model (`entry`, `entries`, `IniContainer`)

Go maps become association lists: `alFind` is map lookup (first match) and
`alInsert` is map assignment (overwrite the existing binding, append a new
one). -/

/-- The distinguished section for keys under no explicit header
(Go `DefaultSection`). -/
def DefaultSection : String := "default"

/-- Go `entry`: one key/value pair with its metadata.  The Go field
`section` is a Lean keyword and is rendered `sectionName`. -/
structure entry where
  sectionName : String
  key : String
  value : String
  env : String
  comment : String
deriving DecidableEq

/-- Go `entries`: a section's key-to-entry map. -/
abbrev entries := List (String × entry)

/-- Map lookup for an association list (first binding wins, as in a Go map
where keys are unique). -/
def alFind {α : Type} : List (String × α) → String → Option α
  | [], _ => none
  | (k, v) :: rest, key => if k = key then some v else alFind rest key

/-- Map assignment `m[key] = v` for an association list. -/
def alInsert {α : Type} : List (String × α) → String → α → List (String × α)
  | [], key, v => [(key, v)]
  | (k, w) :: rest, key, v =>
    if k = key then (k, v) :: rest else (k, w) :: alInsert rest key v

/-- The section-name-to-entry-map table of a container
(Go `map[string]entries`). -/
abbrev valuesMap := List (String × entries)

/-- Go `IniContainer` without its mutex (locking has no observable effect
in the sequential model). -/
structure IniContainer where
  values : valuesMap
  sectionComment : List (String × String)
  endComment : String
deriving DecidableEq

/-- Go `NewConfig`. -/
def NewConfig : IniContainer :=
  { values := [], sectionComment := [], endComment := "" }

deriving instance DecidableEq for Except

/-- `c.values[section][key] = ev` with the two `nil`-map guards of the Go
code: the section map is created when absent. -/
def valuesInsert (vs : valuesMap) (sec key : String) (ev : entry) : valuesMap :=
  match alFind vs sec with
  | some es => alInsert vs sec (alInsert es key ev)
  | none => alInsert vs sec (alInsert [] key ev)

/-! ## Environment expression resolver -/

/-- Go `isValueEnv`: after removing surrounding double quotes the value
starts with the two characters dollar/open-brace and ends with a
close-brace. -/
def isValueEnv (value : String) : Bool :=
  leadsWithS "$\x7b" (trimQuotesS value) && trailsWithS "\x7d" (trimQuotesS value)

/-- The body of Go `ParseValueEnv` past the delimiter stripping: `inner`
is the text between `$`-open-brace and close-brace. -/
def parseEnvInner (env : String → String) (inner : String) : String × String :=
  if ¬ containsS inner "||" then (inner, env inner)
  else
    match splitN2S inner "||" with
    | [a, b] => (a, if env a = "" then b else env a)
    | l => (l.headD "", env (l.headD ""))

/-- Go `ParseValueEnv`.  The process environment is the explicit `env`
argument; Go's `os.Getenv` yields `""` for unset variables. -/
def ParseValueEnv (env : String → String) (value : String) : String × String :=
  if isValueEnv value then
    parseEnvInner env (strMk ((trimQuotesS value).data.drop 2).dropLast)
  else ("", value)

/-! ## Boolean parsing -/

/-- The string spellings Go's `ParseBool` maps to `true`. -/
def trueStrings : List String :=
  ["1", "t", "T", "true", "TRUE", "True", "YES", "yes", "Yes", "Y", "y", "ON", "on", "On"]

/-- The string spellings Go's `ParseBool` maps to `false`. -/
def falseStrings : List String :=
  ["0", "f", "F", "false", "FALSE", "False", "NO", "no", "No", "N", "n", "OFF", "off", "Off"]

/-- Go `ParseBool`, restricted to its string branch (the only branch the
accessor layer exercises). -/
def ParseBool (val : String) : Except String Bool :=
  if val ∈ trueStrings then Except.ok true
  else if val ∈ falseStrings then Except.ok false
  else Except.error ("parsing " ++ val ++ ": invalid syntax")

/-! ## Entry-set accessors (methods on `entries`) -/

/-- Go `entries.GetString`. -/
def entriesGetString (env : String → String) (e : entries) (key : String) : String :=
  match alFind e key with
  | some v =>
    if isValueEnv v.value then (ParseValueEnv env v.value).2
    else v.value
  | none => ""

/-- Go `entries.DefaultString`. -/
def entriesDefaultString (env : String → String) (e : entries) (key val : String) : String :=
  let v := entriesGetString env e key
  if v ≠ "" then v else val

/-! ## Container mutators -/

/-- Go `(*IniContainer).AddEntry`. -/
def AddEntry (env : String → String) (c : IniContainer)
    (sectionArg key value : String) : IniContainer :=
  let sec := trimS sectionArg
  let k := trimS key
  let v := trimS value
  let sec := if sec = "" then DefaultSection else sec
  let envKey := (ParseValueEnv env v).1
  let ev : entry :=
    { sectionName := sec, key := k, value := v,
      env := if envKey ≠ "" then envKey else "", comment := "" }
  { c with values := valuesInsert c.values sec k ev }

/-- Go `(*IniContainer).DeleteKey`. -/
def DeleteKey (c : IniContainer) (sectionArg key : String) : IniContainer × Bool :=
  let sec := trimS sectionArg
  let k := trimS key
  let sec := if sec = "" then DefaultSection else sec
  match alFind c.values sec with
  | some es =>
    match alFind es k with
    | some _ => ({ c with values := alInsert c.values sec (es.filter (fun p => p.1 ≠ k)) }, true)
    | none => (c, false)
  | none => (c, false)

/-- Go `(*IniContainer).DeleteSection`. -/
def DeleteSection (c : IniContainer) (sectionArg : String) : IniContainer × Bool :=
  let sec := trimS sectionArg
  let sec := if sec = "" then DefaultSection else sec
  match alFind c.values sec with
  | some _ => ({ c with values := c.values.filter (fun p => p.1 ≠ sec) }, true)
  | none => (c, false)

/-- Go `(*IniContainer).AddSection`. -/
def AddSection (c : IniContainer) (sectionArg : String) : IniContainer :=
  let sec := trimS sectionArg
  let sec := if sec = "" then DefaultSection else sec
  match alFind c.values sec with
  | some _ => c
  | none => { c with values := alInsert c.values sec [] }

/-! ## Compound-key accessors -/

/-- The `section::key` decomposition shared by `getData` and `Set`:
Go lower-cases the whole key, applies `strings.Split (key, "::")` and keeps
segments `[0]` and `[1]`; with a single segment the `default` section is
addressed. -/
def splitSectionKey (key : String) : String × String :=
  match splitColonsS (lowerS key) with
  | s0 :: k1 :: _ => (s0, k1)
  | [k0] => (DefaultSection, k0)
  | [] => (DefaultSection, "")

/-- Go `(*IniContainer).getData`. -/
def getData (env : String → String) (c : IniContainer) (key : String) : String :=
  if key.data.length = 0 then ""
  else
    match alFind c.values (splitSectionKey key).1 with
    | some v =>
      match alFind v (splitSectionKey key).2 with
      | some vv =>
        if isValueEnv vv.value then (ParseValueEnv env vv.value).2
        else vv.value
      | none => ""
    | none => ""

/-- Go `(*IniContainer).GetString`. -/
def GetString (env : String → String) (c : IniContainer) (key : String) : String :=
  getData env c key

/-- Go `(*IniContainer).DefaultString`. -/
def DefaultString (env : String → String) (c : IniContainer)
    (key defaultVal : String) : String :=
  let v := GetString env c key
  if v = "" then defaultVal else v

/-- Go `(*IniContainer).Bool`. -/
def BoolGet (env : String → String) (c : IniContainer) (key : String) : Except String Bool :=
  ParseBool (getData env c key)

/-- Go `(*IniContainer).DefaultBool`. -/
def DefaultBool (env : String → String) (c : IniContainer) (key : String) (def_ : Bool) : Bool :=
  match BoolGet env c key with
  | Except.ok v => v
  | Except.error _ => def_

/-- Go `(*IniContainer).Set`. -/
def Set (c : IniContainer) (key value : String) : Except String IniContainer :=
  if key.data.length = 0 then Except.error "key is empty"
  else
    Except.ok
      { c with
          values := valuesInsert c.values (splitSectionKey key).1 (splitSectionKey key).2
            { sectionName := (splitSectionKey key).1, key := (splitSectionKey key).2,
              value := value, env := "", comment := "" } }

/-! ## File system abstraction

`stat` distinguishes directories (`some true`) from plain files
(`some false`); `none` is a failed stat.  `readFile` yields a file's whole
content.  `walk` is `filepath.Walk` restricted to what the parser's
callback observes: the non-directory paths under the walk root, in walk
order (`none` is a walk error). -/

structure Fs where
  stat : String → Option Bool
  readFile : String → Option String
  walk : String → Option (List String)

/-- Go `filepath.IsAbs` for slash paths. -/
def isAbsS (p : String) : Bool := leadsWithS "/" p

/-- Go `filepath.Join` for already-clean slash paths. -/
def joinPath (dir p : String) : String := dir ++ "/" ++ p

/-- Go `filepath.Base` for clean slash paths: the text after the last
slash (`info.Name()` of a walked file). -/
def baseNameS (p : String) : String :=
  strMk ((p.data.reverse.takeWhile (fun c => c != '/')).reverse)

/-- Go `filepath.Dir` for clean slash paths. -/
def dirOf (p : String) : String :=
  match p.data.reverse.dropWhile (fun c => c != '/') with
  | [] => "."
  | [_] => "/"
  | _ :: restRev => strMk restRev.reverse

/-! ## The line-oriented parser (`parseData` / `parseFile`) -/

/-- Accumulation of one comment line onto the pending comment buffer
(`bytes.Buffer` joined by newlines). -/
def appendComment (buf line : String) : String :=
  if buf ≠ "" then buf ++ "\n" ++ line else buf ++ line

/-- The include-merge loop of `parseData` (also the body of `Merge`'s
overlay): adopt absent sections wholesale, merge keys of existing ones with
the source overwriting. -/
def mergeValues (dst src : valuesMap) : valuesMap :=
  src.foldl
    (fun acc kv =>
      match alFind acc kv.1 with
      | none => alInsert acc kv.1 kv.2
      | some es => alInsert acc kv.1 (kv.2.foldl (fun es2 e => alInsert es2 e.1 e.2) es))
    dst

/-- Lines 385-387 of `config.go`: a value starting with a double quote has
all its leading and trailing double quotes removed. -/
def stripValueQuotes (val : String) : String :=
  if leadsWithS "\"" val then trimQuotesS val else val

/-- The mutable state of `parseData`'s line loop. -/
structure PState where
  sectionName : String
  values : valuesMap
  sectionComment : List (String × String)
  comment : String
deriving DecidableEq

/-- The include-directive handling of `parseData`'s line loop (lines
320-379 of `config.go`).  Returns the state after any merging together with
whether the Go control flow reached a `continue` (`true`) or fell through
to the `key = val` check (`false`). -/
def includeStep (fs : Fs) (dir : String)
    (pf : String → String → Except String IniContainer)
    (kv : List String) (key : String) (st : PState) : PState × Bool :=
  if kv.length == 1 && leadsWithS "include " key then
    if (fieldsS key).headD "" == "include" && (fieldsS key).length == 2 then
      match fs.stat (if isAbsS (trimQuotesS ((fieldsS key).getD 1 ""))
          then trimQuotesS ((fieldsS key).getD 1 "")
          else joinPath dir (trimQuotesS ((fieldsS key).getD 1 ""))) with
      | none => (st, true)
      | some true =>
        match fs.walk dir with
        | none => (st, true)
        | some paths =>
          (paths.foldl
            (fun acc path =>
              if trailsWithS ".ini" (baseNameS path)
                  || trailsWithS ".conf" (baseNameS path) then
                match pf path acc.sectionName with
                | Except.ok ini => { acc with values := mergeValues acc.values ini.values }
                | Except.error _ => acc
              else acc)
            st, false)
      | some false =>
        match pf (if isAbsS (trimQuotesS ((fieldsS key).getD 1 ""))
            then trimQuotesS ((fieldsS key).getD 1 "")
            else joinPath dir (trimQuotesS ((fieldsS key).getD 1 "")))
            st.sectionName with
        | Except.ok ini => ({ st with values := mergeValues st.values ini.values }, true)
        | Except.error _ => (st, true)
    else (st, false)
  else (st, false)

/-- The line loop of Go `parseData`.  `pf` is the recursive `parseFile`
call used by include directives (instantiated at one less fuel by
`parseDataGo`). -/
def parseLoopCore (env : String → String) (fs : Fs) (dir : String)
    (pf : String → String → Except String IniContainer) :
    List String → PState → Except String PState
  | [], st => Except.ok st
  | rawLine :: rest, st =>
    let line := trimS rawLine
    if line = "" then parseLoopCore env fs dir pf rest st
    else if leadsWithS "#" line || leadsWithS ";" line then
      parseLoopCore env fs dir pf rest { st with comment := appendComment st.comment line }
    else if leadsWithS "[" line && trailsWithS "]" line then
      let sec := lowerS (strMk (line.data.drop 1).dropLast)
      parseLoopCore env fs dir pf rest
        { st with sectionName := sec,
                  sectionComment := alInsert st.sectionComment sec st.comment,
                  comment := "" }
    else
      let kv := splitN2S line "="
      let key := lowerS (trimS (kv.headD ""))
      let step : PState × Bool := includeStep fs dir pf kv key st
      if step.2 then parseLoopCore env fs dir pf rest step.1
      else if kv.length ≠ 2 then
        Except.error ("read the content error: \"" ++ line ++ "\", should key = val")
      else
        let val := stripValueQuotes (trimS (kv.getD 1 ""))
        let ev : entry :=
          { sectionName := step.1.sectionName, key := key, value := val,
            env := if isValueEnv val then (ParseValueEnv env val).1 else "",
            comment := step.1.comment }
        parseLoopCore env fs dir pf rest
          { step.1 with
              values := valuesInsert step.1.values step.1.sectionName key ev,
              comment := "" }

/-- Removal of a UTF-8 byte-order mark at offset 0. -/
def stripBOM (s : String) : String :=
  match s.data with
  | '\uFEFF' :: rest => strMk rest
  | _ => s

/-- Go `parseData`, with a fuel bound on the include recursion depth (the
Go original recurses unboundedly through the file-system graph). -/
def parseDataGo (env : String → String) (fs : Fs) :
    Nat → String → String → String → Except String IniContainer
  | 0, _, _, _ => Except.error "include depth limit"
  | fuel + 1, data, sec, dir =>
    if data.data.length = 0 then Except.error "data is empty"
    else
      let lines := linesOf (stripBOM data)
      match parseLoopCore env fs dir
          (fun path s =>
            match fs.readFile path with
            | none => Except.error "read file error"
            | some d => parseDataGo env fs fuel d s (dirOf path))
          lines { sectionName := sec, values := [], sectionComment := [], comment := "" } with
      | Except.error e => Except.error e
      | Except.ok st =>
        Except.ok
          { values := st.values, sectionComment := st.sectionComment,
            endComment := if st.comment ≠ "" then st.comment else "" }

/-- Go `parseFile`: read a whole file and parse it with the file's
directory as include base. -/
def parseFileGo (env : String → String) (fs : Fs) (fuel : Nat)
    (path sec : String) : Except String IniContainer :=
  match fs.readFile path with
  | none => Except.error "read file error"
  | some d => parseDataGo env fs fuel d sec (dirOf path)

/-- Go `LoadFromFile`. -/
def LoadFromFileGo (env : String → String) (fs : Fs) (fuel : Nat)
    (path : String) : Except String IniContainer :=
  parseFileGo env fs fuel path DefaultSection

/-! ## `Merge`, with Go's map-as-reference semantics

Entry maps live in `EntryHeap`; a `RefContainer` holds, per section name,
the heap address of its entry map.  `Merge`'s overlay loop writes through
those addresses exactly where the Go code writes `cfg.values[k][kk]`. -/

structure EntryHeap where
  maps : List entries
deriving DecidableEq

structure RefContainer where
  values : List (String × Nat)
deriving DecidableEq

/-- Dereference an entry-map address. -/
def heapGet (h : EntryHeap) (a : Nat) : entries := h.maps.getD a []

/-- `m[k] = ev` through the address `a` of the map `m`. -/
def heapInsertAt (h : EntryHeap) (a : Nat) (k : String) (ev : entry) : EntryHeap :=
  { maps := h.maps.set a (alInsert (heapGet h a) k ev) }

/-- The content a container observes for a section: look the address up,
then dereference it. -/
def readSection (h : EntryHeap) (c : RefContainer) (name : String) : Option entries :=
  (alFind c.values name).map (heapGet h)

/-- Go `Merge`.  Returns the heap after the call together with the result
container (`none` is a nil `*IniContainer`). -/
def Merge (h : EntryHeap) :
    Option RefContainer → Option RefContainer → EntryHeap × Option RefContainer
  | none, none => (h, none)
  | some c1, none => (h, some c1)
  | none, some c2 => (h, some c2)
  | some c1, some c2 =>
    let base := c1.values.foldl (fun acc kv => alInsert acc kv.1 kv.2) []
    let res := c2.values.foldl
      (fun (s : EntryHeap × List (String × Nat)) kv =>
        match alFind s.2 kv.1 with
        | none => (s.1, alInsert s.2 kv.1 kv.2)
        | some addr =>
          ((heapGet s.1 kv.2).foldl (fun hh e => heapInsertAt hh addr e.1 e.2) s.1, s.2))
      (h, base)
    (res.1, some { values := res.2 })

/-! ## Derived views and spec-side predicates -/

/-- The entry `getData` addresses for a key: its lookup phase, without the
environment-resolution step. -/
def lookupEntry (c : IniContainer) (key : String) : Option entry :=
  if key.data.length = 0 then none
  else
    match alFind c.values (splitSectionKey key).1 with
    | some es => alFind es (splitSectionKey key).2
    | none => none

/-- A string already in lower case (a fixed point of `lowerS`). -/
def IsLowerStr (s : String) : Prop := lowerS s = s

instance (s : String) : Decidable (IsLowerStr s) :=
  inferInstanceAs (Decidable (lowerS s = s))

/-- Every section name and every key of the table is stored lower-cased. -/
def LowerInv (vs : valuesMap) : Prop :=
  ∀ p ∈ vs, IsLowerStr p.1 ∧ ∀ q ∈ p.2, IsLowerStr q.1

/-- A run of `n` double-quote characters. -/
def quotesRun (n : Nat) : String := strMk (List.replicate n '"')

/-! ## Concrete fixtures for witnesses and counterexamples -/

/-- The empty process environment: every variable unset. -/
def env0 : String → String := fun _ => ""

/-- A process environment defining only `HOME`. -/
def envHome : String → String := fun n => if n = "HOME" then "/root" else ""

/-- An empty file system. -/
def fs0 : Fs :=
  { stat := fun _ => none, readFile := fun _ => none, walk := fun _ => none }

/-- A file system whose only entry is the directory `/base/d`; walking the
base directory `/base` finds no files. -/
def fsDir : Fs :=
  { stat := fun p => if p = "/base/d" then some true else none,
    readFile := fun _ => none, walk := fun _ => some [] }

/-- A `parseFile` callback that always fails (no include ever resolves). -/
def pf0 : String → String → Except String IniContainer :=
  fun _ _ => Except.error "no file system"

/-- The initial line-loop state of a fresh parse in section `default`. -/
def pst0 : PState :=
  { sectionName := "default", values := [], sectionComment := [], comment := "" }

/-- A heap holding two one-entry maps at addresses 0 and 1. -/
def mergeHeapPair (k1 k2 : String) (e1 e2 : entry) : EntryHeap :=
  { maps := [[(k1, e1)], [(k2, e2)]] }

/-- A container whose single section `s` points at heap address 0. -/
def refA : RefContainer := { values := [("s", 0)] }

/-- A container whose single section `s` points at heap address 1. -/
def refB : RefContainer := { values := [("s", 1)] }

/-- The entry `k1=1` of section `s`. -/
def entryK1 : entry :=
  { sectionName := "s", key := "k1", value := "1", env := "", comment := "" }

/-- The entry `k2=2` of section `s`. -/
def entryK2 : entry :=
  { sectionName := "s", key := "k2", value := "2", env := "", comment := "" }

/-! ## Character-level lemmas -/

theorem toNat_ofNatAux (n : Nat) (h : n.isValidChar) : (Char.ofNatAux n h).toNat = n := rfl

theorem toNat_ofNat_valid (n : Nat) (h : n.isValidChar) : (Char.ofNat n).toNat = n := by
  unfold Char.ofNat
  rw [dif_pos h]
  exact toNat_ofNatAux n h

theorem lowerChar_toNat_of_upper (c : Char) (h : 65 ≤ c.toNat ∧ c.toNat ≤ 90) :
    (lowerChar c).toNat = c.toNat + 32 := by
  unfold lowerChar
  rw [if_pos h]
  apply toNat_ofNat_valid
  constructor
  omega

theorem lowerChar_eq_of_not_upper (c : Char) (h : ¬(65 ≤ c.toNat ∧ c.toNat ≤ 90)) :
    lowerChar c = c := by
  rw [lowerChar, if_neg h]

theorem lowerChar_idem (c : Char) : lowerChar (lowerChar c) = lowerChar c := by
  by_cases h : 65 ≤ c.toNat ∧ c.toNat ≤ 90
  · have h2 := lowerChar_toNat_of_upper c h
    rw [lowerChar]
    rw [if_neg]
    rw [h2]
    omega
  · have hc := lowerChar_eq_of_not_upper c h
    rw [hc]
    exact hc

theorem lowerChar_eq_colon_iff (c : Char) : lowerChar c = ':' ↔ c = ':' := by
  constructor
  · intro h
    by_cases hu : 65 ≤ c.toNat ∧ c.toNat ≤ 90
    · exfalso
      have h2 := lowerChar_toNat_of_upper c hu
      have h58 : (lowerChar c).toNat = 58 := by
        rw [h]
        decide
      rw [h58] at h2
      omega
    · rw [lowerChar_eq_of_not_upper c hu] at h
      exact h
  · intro h
    subst h
    decide

theorem lowerS_idem (s : String) : lowerS (lowerS s) = lowerS s := by
  unfold lowerS strMk
  simp only [List.map_map]
  congr 1
  apply List.map_congr_left
  intro c _
  exact lowerChar_idem c

theorem strMk_data (s : String) : strMk s.data = s := rfl

theorem data_strMk (l : List Char) : (strMk l).data = l := rfl

theorem data_append (a b : String) : (a ++ b).data = a.data ++ b.data := by
  exact String.data_append a b

/-! ## Association-list lemmas -/

theorem alFind_mem {α : Type} {l : List (String × α)} {key : String} {v : α}
    (h : alFind l key = some v) : (key, v) ∈ l := by
  induction l with
  | nil => simp [alFind] at h
  | cons p rest ih =>
    rw [alFind] at h
    by_cases hp : p.1 = key
    · rw [if_pos hp] at h
      cases h
      have hpe : (key, p.2) = p := by
        rw [← hp]
      rw [hpe]
      exact List.mem_cons_self p rest
    · rw [if_neg hp] at h
      right
      exact ih h

theorem mem_alInsert {α : Type} {l : List (String × α)} {key : String} {v : α} {x : String × α}
    (h : x ∈ alInsert l key v) : x = (key, v) ∨ x ∈ l := by
  induction l with
  | nil =>
    rw [alInsert] at h
    simp at h
    left
    exact h
  | cons p rest ih =>
    rw [alInsert] at h
    by_cases hp : p.1 = key
    · rw [if_pos hp] at h
      rcases List.mem_cons.mp h with h1 | h1
      · left
        rw [h1, hp]
      · right
        exact List.mem_cons_of_mem p h1
    · rw [if_neg hp] at h
      rcases List.mem_cons.mp h with h1 | h1
      · right
        rw [h1]
        exact List.mem_cons_self p rest
      · rcases ih h1 with h2 | h2
        · left
          exact h2
        · right
          exact List.mem_cons_of_mem p h2

theorem alFind_alInsert_self {α : Type} (l : List (String × α)) (key : String) (v : α) :
    alFind (alInsert l key v) key = some v := by
  induction l with
  | nil => simp [alInsert, alFind]
  | cons p rest ih =>
    rw [alInsert]
    by_cases hp : p.1 = key
    · rw [if_pos hp, alFind, if_pos hp]
    · rw [if_neg hp, alFind, if_neg hp]
      exact ih

theorem alFind_valuesInsert_self (vs : valuesMap) (sec key : String) (ev : entry) :
    ∃ es, alFind (valuesInsert vs sec key ev) sec = some es ∧ alFind es key = some ev := by
  unfold valuesInsert
  cases alFind vs sec with
  | none =>
    exact ⟨alInsert [] key ev, alFind_alInsert_self vs sec _, alFind_alInsert_self [] key ev⟩
  | some es =>
    exact ⟨alInsert es key ev, alFind_alInsert_self vs sec _, alFind_alInsert_self es key ev⟩

/-! ## C1: an include directive whose target is an existing directory -/

/-- C1: the claim states that an include line never aborts the parse.  The
code disagrees: after a successful directory scan the include branch falls
through to the `key = val` check and the whole parse is rejected with a
syntax error, while the same document with a missing include target parses
and keeps processing the following lines.  (The Go `continue` is missing
from the directory branch of `parseData`.) -/
theorem C1_include_directory_aborts :
    parseDataGo env0 fsDir 2 "include d\nk = v" "default" "/base"
      = Except.error "read the content error: \"include d\", should key = val"
    ∧ (match parseDataGo env0 fs0 2 "include missing\nk = v" "default" "/base" with
       | Except.ok c => getData env0 c "k"
       | Except.error _ => "ABORTED") = "v" := by
  decide

/-! ## C2: double-quote stripping in values -/

/-- C2 counterexample: for the line `k="a"b"` the parser stores the value
`a"b` — the double quote embedded in the middle of the value survives, so
not every double-quote character is removed. -/
theorem C2_counterexample :
    (match parseDataGo env0 fs0 1 "k=\"a\"b\"" "default" "." with
     | Except.ok c => getData env0 c "k"
     | Except.error _ => "ABORTED") = "a\"b"
    ∧ '"' ∈ ("a\"b").data := by
  decide

/-! ## C3: lower-casing of stored section names and keys -/

/-- C3 counterexample: `AddEntry` stores its (trimmed) section and key
exactly as given; with mixed-case arguments the stored section name and key
are not lower-cased. -/
theorem C3_counterexample :
    (AddEntry env0 NewConfig "Sec" "Key" "v").values
      = [("Sec", [("Key",
          { sectionName := "Sec", key := "Key", value := "v", env := "", comment := "" })])]
    ∧ lowerS "Sec" ≠ "Sec" ∧ lowerS "Key" ≠ "Key" := by
  decide

/-! ## C4: Merge and the entry maps shared with its inputs -/

/-- C4 counterexample: after `Merge`, reading section `s` of the first
input through the post-call heap shows `k2` — `Merge` wrote the second
input's key into the entry map owned by the first input. -/
theorem C4_counterexample :
    readSection (Merge (mergeHeapPair "k1" "k2" entryK1 entryK2) (some refA) (some refB)).1
        refA "s" = some [("k1", entryK1), ("k2", entryK2)]
    ∧ readSection (mergeHeapPair "k1" "k2" entryK1 entryK2) refA "s"
        = some [("k1", entryK1)] := by
  decide

/-! ## C5: compound-key splitting on `::` -/

/-- C5 counterexample: with section `a` holding the key `b::c`, the lookup
key `a::b::c` returns `""`: `getData` addresses key `b` (the second
`Split` segment), not `b::c`. -/
theorem C5_counterexample :
    getData env0
        { values := [("a", [("b::c",
            { sectionName := "a", key := "b::c", value := "x", env := "", comment := "" })])],
          sectionComment := [], endComment := "" } "a::b::c" = ""
    ∧ entriesGetString env0
        [("b::c",
          { sectionName := "a", key := "b::c", value := "x", env := "", comment := "" })]
        "b::c" = "x" := by
  decide

/-! ## C6: ParseBool spellings -/

/-- C6 counterexample: `tRue` is a mixed-case spelling of the true-cluster
word `true`, yet `ParseBool` rejects it. -/
theorem C6_counterexample :
    ParseBool "tRue" = Except.error "parsing tRue: invalid syntax"
    ∧ lowerS "tRue" = "true" := by
  decide

theorem true_false_disjoint (s : String) (ht : s ∈ trueStrings) (hf : s ∈ falseStrings) :
    False := by
  simp only [trueStrings] at ht
  fin_cases ht <;> exact absurd hf (by decide)

/-- C6 amended: `ParseBool` answers `true` exactly on the fourteen listed
spellings of the true-like words, `false` exactly on the fourteen listed
spellings of the false-like words; each accepted spelling lower-cases into
its cluster, but arbitrary case mixtures are not accepted. -/
theorem C6_parsebool_amended :
    (∀ s, ParseBool s = Except.ok true ↔ s ∈ trueStrings)
    ∧ (∀ s, ParseBool s = Except.ok false ↔ s ∈ falseStrings)
    ∧ (∀ s ∈ trueStrings, lowerS s ∈ ["1", "t", "true", "yes", "y", "on"])
    ∧ (∀ s ∈ falseStrings, lowerS s ∈ ["0", "f", "false", "no", "n", "off"]) := by
  refine ⟨?_, ?_, by decide, by decide⟩
  · intro s
    unfold ParseBool
    by_cases ht : s ∈ trueStrings
    · rw [if_pos ht]
      simp [ht]
    · rw [if_neg ht]
      by_cases hf : s ∈ falseStrings
      · rw [if_pos hf]
        simp [ht]
      · rw [if_neg hf]
        simp [ht]
  · intro s
    unfold ParseBool
    by_cases ht : s ∈ trueStrings
    · rw [if_pos ht]
      constructor
      · intro h
        simp at h
      · intro hf
        exact (true_false_disjoint s ht hf).elim
    · rw [if_neg ht]
      by_cases hf : s ∈ falseStrings
      · rw [if_pos hf]
        simp [hf]
      · rw [if_neg hf]
        simp [hf]

/-- C6 witness: the Title-case and UPPER-CASE spellings parse, and `True`
lower-cases into the true cluster. -/
theorem C6_parsebool_amended_witness :
    ParseBool "True" = Except.ok true ∧ ParseBool "OFF" = Except.ok false
    ∧ lowerS "True" ∈ ["1", "t", "true", "yes", "y", "on"] :=
  ⟨(C6_parsebool_amended.1 "True").mpr (by decide),
   (C6_parsebool_amended.2.1 "OFF").mpr (by decide),
   C6_parsebool_amended.2.2.1 "True" (by decide)⟩

/-! ## String-splitting lemmas for the environment grammar -/

theorem dropQuotes_eq_self (l : List Char) (h : l.head? ≠ some '"') :
    l.dropWhile (fun c => c == '"') = l := by
  cases l with
  | nil => rfl
  | cons c cs =>
    have hc : c ≠ '"' := by
      intro hcc
      apply h
      simp [hcc]
    have hb : (c == '"') = false := by
      cases hb2 : c == '"'
      · rfl
      · exact absurd (eq_of_beq hb2) hc
    rw [List.dropWhile_cons, hb]
    simp

theorem trimQuotesS_eq_self (s : String) (h1 : s.data.head? ≠ some '"')
    (h2 : s.data.getLast? ≠ some '"') : trimQuotesS s = s := by
  unfold trimQuotesS dropEndWhile
  rw [dropQuotes_eq_self s.data h1]
  rw [dropQuotes_eq_self s.data.reverse (by rw [List.head?_reverse]; exact h2)]
  rw [List.reverse_reverse]
  exact strMk_data s

theorem findSplit_pipes (name after : List Char) (h : '|' ∉ name) :
    findSplit ['|', '|'] (name ++ '|' :: '|' :: after) = some (name, after) := by
  induction name with
  | nil => simp [findSplit, leadsWith]
  | cons c cs ih =>
    have hc : c ≠ '|' := fun hcc => h (hcc ▸ List.mem_cons_self c cs)
    have hc2 : ('|' == c) = false := by
      cases hb : '|' == c
      · rfl
      · exact absurd (eq_of_beq hb).symm hc
    rw [List.cons_append, findSplit]
    have hl : leadsWith ['|', '|'] (c :: (cs ++ '|' :: '|' :: after)) = false := by
      simp [leadsWith, hc2]
    rw [hl]
    rw [ih (fun hm => h (List.mem_cons_of_mem c hm))]
    simp

theorem findSplit_single (c : Char) (before after : List Char) (h : c ∉ before) :
    findSplit [c] (before ++ c :: after) = some (before, after) := by
  induction before with
  | nil => simp [findSplit, leadsWith]
  | cons b bs ih =>
    have hb : b ≠ c := fun hbc => h (hbc ▸ List.mem_cons_self b bs)
    have hb2 : (c == b) = false := by
      cases hx : c == b
      · rfl
      · exact absurd (eq_of_beq hx).symm hb
    rw [List.cons_append, findSplit]
    have hl : leadsWith [c] (b :: (bs ++ c :: after)) = false := by
      simp [leadsWith, hb2]
    rw [hl]
    rw [ih (fun hm => h (List.mem_cons_of_mem b hm))]
    simp

/-! ## C7: resolution of environment expressions -/

/-- C7: `ParseValueEnv` on `$\x7bNAME||literal\x7d` splits the inner text
on the first `||`: the environment key is `NAME` and the resolved value is
the environment's value of `NAME` when set and non-empty, otherwise the
literal; on `$\x7bNAME\x7d` (no `||`) the key is `NAME` and the resolved
value is the environment's value, `""` when unset. -/
theorem C7_env_resolution :
    (∀ env (name lit : String), '|' ∉ name.data →
      ParseValueEnv env ("$\x7b" ++ name ++ "||" ++ lit ++ "\x7d")
        = (name, if env name = "" then lit else env name))
    ∧ (∀ env (name : String), containsS name "||" = false →
      ParseValueEnv env ("$\x7b" ++ name ++ "\x7d") = (name, env name)) := by
  constructor
  · intro env name lit hpipe
    have hdata : ("$\x7b" ++ name ++ "||" ++ lit ++ "\x7d").data
        = '$' :: '{' :: (name.data ++ '|' :: '|' :: (lit.data ++ ['}'])) := by
      simp [data_append]
    have hq : trimQuotesS ("$\x7b" ++ name ++ "||" ++ lit ++ "\x7d")
        = "$\x7b" ++ name ++ "||" ++ lit ++ "\x7d" := by
      apply trimQuotesS_eq_self
      · rw [hdata]
        simp
      · rw [hdata]
        rw [(by simp : '$' :: '{' :: (name.data ++ '|' :: '|' :: (lit.data ++ ['}']))
          = ('$' :: '{' :: (name.data ++ '|' :: '|' :: lit.data)) ++ ['}'])]
        rw [List.getLast?_concat]
        decide
    have henv : isValueEnv ("$\x7b" ++ name ++ "||" ++ lit ++ "\x7d") = true := by
      unfold isValueEnv
      rw [hq]
      unfold leadsWithS trailsWithS
      rw [Bool.and_eq_true]
      constructor
      · rw [hdata, (rfl : ("$\x7b").data = ['$', '{'])]
        simp [leadsWith]
      · rw [hdata, (rfl : ("\x7d").data = ['}'])]
        simp [leadsWith]
    have hinner : (("$\x7b" ++ name ++ "||" ++ lit ++ "\x7d").data.drop 2).dropLast
        = name.data ++ '|' :: '|' :: lit.data := by
      rw [hdata]
      simp only [List.drop_succ_cons, List.drop_zero]
      rw [(by simp : name.data ++ '|' :: '|' :: (lit.data ++ ['}'])
        = (name.data ++ '|' :: '|' :: lit.data) ++ ['}'])]
      exact List.dropLast_concat
    have hfind := findSplit_pipes name.data lit.data hpipe
    have hcont : containsS (strMk (name.data ++ '|' :: '|' :: lit.data)) "||" = true := by
      unfold containsS
      rw [data_strMk, (rfl : ("||").data = ['|', '|']), hfind]
      rfl
    have hsplit : splitN2S (strMk (name.data ++ '|' :: '|' :: lit.data)) "||"
        = [name, lit] := by
      unfold splitN2S
      rw [data_strMk, (rfl : ("||").data = ['|', '|']), hfind]
      show [strMk name.data, strMk lit.data] = [name, lit]
      rw [strMk_data, strMk_data]
    unfold ParseValueEnv
    rw [henv]
    simp only [if_true]
    rw [hq, hinner]
    unfold parseEnvInner
    rw [hcont, hsplit]
    simp
  · intro env name hcont
    have hdata : ("$\x7b" ++ name ++ "\x7d").data
        = '$' :: '{' :: (name.data ++ ['}']) := by
      simp [data_append]
    have hq : trimQuotesS ("$\x7b" ++ name ++ "\x7d") = "$\x7b" ++ name ++ "\x7d" := by
      apply trimQuotesS_eq_self
      · rw [hdata]
        simp
      · rw [hdata]
        rw [(by simp : '$' :: '{' :: (name.data ++ ['}'])
          = ('$' :: '{' :: name.data) ++ ['}'])]
        rw [List.getLast?_concat]
        decide
    have henv : isValueEnv ("$\x7b" ++ name ++ "\x7d") = true := by
      unfold isValueEnv
      rw [hq]
      unfold leadsWithS trailsWithS
      rw [Bool.and_eq_true]
      constructor
      · rw [hdata, (rfl : ("$\x7b").data = ['$', '{'])]
        simp [leadsWith]
      · rw [hdata, (rfl : ("\x7d").data = ['}'])]
        simp [leadsWith]
    have hinner : (("$\x7b" ++ name ++ "\x7d").data.drop 2).dropLast = name.data := by
      rw [hdata]
      simp only [List.drop_succ_cons, List.drop_zero]
      exact List.dropLast_concat
    unfold ParseValueEnv
    rw [henv]
    simp only [if_true]
    rw [hq, hinner, strMk_data]
    unfold parseEnvInner
    rw [hcont]
    simp

/-- C7 witness: under the empty environment, `$\x7bGOSRC||/etc/go/src\x7d`
resolves to the literal default and `$\x7bDOES_NOT_EXIST\x7d` resolves to
the empty string. -/
theorem C7_env_resolution_witness :
    ParseValueEnv env0 ("$\x7b" ++ "GOSRC" ++ "||" ++ "/etc/go/src" ++ "\x7d")
      = ("GOSRC", if env0 "GOSRC" = "" then "/etc/go/src" else env0 "GOSRC")
    ∧ ParseValueEnv env0 ("$\x7b" ++ "DOES_NOT_EXIST" ++ "\x7d")
      = ("DOES_NOT_EXIST", env0 "DOES_NOT_EXIST") :=
  ⟨C7_env_resolution.1 env0 "GOSRC" "/etc/go/src" (by decide),
   C7_env_resolution.2 env0 "DOES_NOT_EXIST" (by decide)⟩

/-! ## C2 amended: quote trimming from both ends only -/

theorem dropWhile_quotes_replicate (n : Nat) (l : List Char) :
    (List.replicate n '"' ++ l).dropWhile (fun c => c == '"')
      = l.dropWhile (fun c => c == '"') := by
  induction n with
  | zero => simp
  | succ k ih =>
    rw [List.replicate_succ, List.cons_append, List.dropWhile_cons]
    simp [ih]

/-- C2 amended: a value consisting of a (non-empty) run of leading quotes,
a core that neither starts nor ends with a quote, and a run of trailing
quotes, is stored as exactly the core: the end runs are removed, and every
double quote embedded inside the core survives. -/
theorem C2_quote_trim_amended (n m : Nat) (core : String) (hn : 1 ≤ n)
    (hh : core.data.head? ≠ some '"') (hl : core.data.getLast? ≠ some '"') :
    stripValueQuotes (quotesRun n ++ core ++ quotesRun m) = core := by
  have hdata : (quotesRun n ++ core ++ quotesRun m).data
      = List.replicate n '"' ++ (core.data ++ List.replicate m '"') := by
    simp [data_append, quotesRun, data_strMk]
  obtain ⟨k, rfl⟩ : ∃ k, n = k + 1 := ⟨n - 1, by omega⟩
  have hlead : leadsWithS "\"" (quotesRun (k + 1) ++ core ++ quotesRun m) = true := by
    unfold leadsWithS
    rw [hdata, List.replicate_succ]
    simp [leadsWith]
  unfold stripValueQuotes
  rw [hlead]
  simp only [if_true]
  unfold trimQuotesS dropEndWhile
  rw [hdata, dropWhile_quotes_replicate]
  cases hcd : core.data with
  | nil =>
    have hcore : core = "" := by
      rw [← strMk_data core, hcd]
      rfl
    have hrep : (List.replicate m '"').dropWhile (fun c => c == '"') = [] := by
      have h := dropWhile_quotes_replicate m []
      rw [List.append_nil] at h
      rw [h]
      rfl
    simp only [List.nil_append, hrep, List.reverse_nil, List.dropWhile_nil]
    rw [hcore]
    rfl
  | cons c cs =>
    have hcne : c ≠ '"' := by
      intro hcc
      exact hh (by simp [hcd, hcc])
    have hc : (c == '"') = false := by
      cases hb : c == '"'
      · rfl
      · exact absurd (eq_of_beq hb) hcne
    rw [List.cons_append, List.dropWhile_cons, hc]
    simp only [Bool.false_eq_true, if_false]
    rw [(by simp : (c :: (cs ++ List.replicate m '"')).reverse
      = List.replicate m '"' ++ (cs.reverse ++ [c]))]
    rw [dropWhile_quotes_replicate]
    rw [(by simp : cs.reverse ++ [c] = (c :: cs).reverse)]
    rw [dropQuotes_eq_self ((c :: cs).reverse) (by
      rw [List.head?_reverse, ← hcd]
      exact hl)]
    rw [List.reverse_reverse, ← hcd, strMk_data]

/-- C2 amended witness: `"a"b"` (leading and trailing quote around the core
`a"b`) is stored as `a"b`. -/
theorem C2_quote_trim_amended_witness :
    stripValueQuotes (quotesRun 1 ++ "a\"b" ++ quotesRun 1) = "a\"b" :=
  C2_quote_trim_amended 1 1 "a\"b" (by decide) (by decide) (by decide)

/-! ## C5 amended: `::` splitting keeps only the first two segments -/

theorem strMk_append (x y : List Char) : strMk x ++ strMk y = strMk (x ++ y) := rfl

theorem lowerS_append (a b : String) : lowerS (a ++ b) = lowerS a ++ lowerS b := by
  unfold lowerS
  rw [strMk_append, data_append, List.map_append]

theorem splitColAux_sep (a rest : List Char) (h : ':' ∉ a) :
    ∀ acc, splitColAux (a ++ ':' :: ':' :: rest) acc
      = (acc.reverse ++ a) :: splitColAux rest [] := by
  induction a with
  | nil =>
    intro acc
    rw [List.nil_append, splitColAux, if_pos ⟨rfl, rfl⟩]
    simp
  | cons x xs ih =>
    intro acc
    have hx : x ≠ ':' := fun hxc => h (hxc ▸ List.mem_cons_self x xs)
    have htail : ':' ∉ xs := fun hm => h (List.mem_cons_of_mem x hm)
    cases xs with
    | nil =>
      rw [List.cons_append, List.nil_append, splitColAux,
        if_neg (fun hand => hx hand.1)]
      rw [splitColAux, if_pos ⟨rfl, rfl⟩]
      simp
    | cons y ys =>
      rw [List.cons_append, List.cons_append, splitColAux,
        if_neg (fun hand => hx hand.1)]
      rw [← List.cons_append]
      rw [ih htail (x :: acc)]
      simp

theorem splitColAux_nocolon (a : List Char) (h : ':' ∉ a) :
    ∀ acc, splitColAux a acc = [acc.reverse ++ a] := by
  induction a with
  | nil =>
    intro acc
    simp [splitColAux]
  | cons x xs ih =>
    intro acc
    have hx : x ≠ ':' := fun hxc => h (hxc ▸ List.mem_cons_self x xs)
    have htail : ':' ∉ xs := fun hm => h (List.mem_cons_of_mem x hm)
    cases xs with
    | nil =>
      simp [splitColAux]
    | cons y ys =>
      rw [splitColAux, if_neg (fun hand => hx hand.1)]
      rw [ih htail (x :: acc)]
      simp

theorem splitColonsS_two (s k r : String) (hs : ':' ∉ s.data) (hk : ':' ∉ k.data) :
    splitColonsS (s ++ "::" ++ k ++ "::" ++ r) = s :: k :: splitColonsS r := by
  unfold splitColonsS
  have hdata : (s ++ "::" ++ k ++ "::" ++ r).data
      = s.data ++ ':' :: ':' :: (k.data ++ ':' :: ':' :: r.data) := by
    simp [data_append]
  rw [hdata, splitColAux_sep s.data _ hs []]
  rw [splitColAux_sep k.data _ hk []]
  simp [strMk_data]

theorem splitColonsS_pair (s k : String) (hs : ':' ∉ s.data) (hk : ':' ∉ k.data) :
    splitColonsS (s ++ "::" ++ k) = [s, k] := by
  unfold splitColonsS
  have hdata : (s ++ "::" ++ k).data = s.data ++ ':' :: ':' :: k.data := by
    simp [data_append]
  rw [hdata, splitColAux_sep s.data _ hs []]
  rw [splitColAux_nocolon k.data hk []]
  simp [strMk_data]

theorem splitColonsS_one (k : String) (hk : ':' ∉ k.data) :
    splitColonsS k = [k] := by
  unfold splitColonsS
  rw [splitColAux_nocolon k.data hk []]
  simp [strMk_data]

theorem data_len_pos_of_sep (s k : String) (t : String)
    (h : t.data = s.data ++ ':' :: ':' :: k.data) : ¬ t.data.length = 0 := by
  rw [h]
  simp

/-- C5 amended: the lookup or write key is fully split on `::` and only the
first two segments matter: everything after the second `::` is discarded,
so `s::k::r` and `s::k` address the same entry, for reads (`getData`) and
writes (`Set`) alike; a key with no `::` addresses the `default` section. -/
theorem C5_split_amended :
    (∀ env c (s k r : String), ':' ∉ (lowerS s).data → ':' ∉ (lowerS k).data →
      getData env c (s ++ "::" ++ k ++ "::" ++ r) = getData env c (s ++ "::" ++ k))
    ∧ (∀ c v (s k r : String), ':' ∉ (lowerS s).data → ':' ∉ (lowerS k).data →
      Set c (s ++ "::" ++ k ++ "::" ++ r) v = Set c (s ++ "::" ++ k) v)
    ∧ (∀ env c (k : String), ':' ∉ (lowerS k).data → k ≠ "" →
      getData env c k = getData env c ("default::" ++ k)) := by
  have hlowsep : ∀ (s k r : String), lowerS (s ++ "::" ++ k ++ "::" ++ r)
      = lowerS s ++ "::" ++ lowerS k ++ "::" ++ lowerS r := by
    intro s k r
    rw [lowerS_append, lowerS_append, lowerS_append, lowerS_append]
    rw [(by decide : lowerS "::" = "::")]
  have hlowpair : ∀ (s k : String), lowerS (s ++ "::" ++ k)
      = lowerS s ++ "::" ++ lowerS k := by
    intro s k
    rw [lowerS_append, lowerS_append]
    rw [(by decide : lowerS "::" = "::")]
  have hsk2 : ∀ (s k r : String), ':' ∉ (lowerS s).data → ':' ∉ (lowerS k).data →
      splitSectionKey (s ++ "::" ++ k ++ "::" ++ r) = (lowerS s, lowerS k) := by
    intro s k r hs hk
    unfold splitSectionKey
    rw [hlowsep, splitColonsS_two (lowerS s) (lowerS k) (lowerS r) hs hk]
  have hskp : ∀ (s k : String), ':' ∉ (lowerS s).data → ':' ∉ (lowerS k).data →
      splitSectionKey (s ++ "::" ++ k) = (lowerS s, lowerS k) := by
    intro s k hs hk
    unfold splitSectionKey
    rw [hlowpair, splitColonsS_pair (lowerS s) (lowerS k) hs hk]
  have hlen2 : ∀ (s k r : String), ¬ (s ++ "::" ++ k ++ "::" ++ r).data.length = 0 := by
    intro s k r
    simp [data_append]
  have hlenp : ∀ (s k : String), ¬ (s ++ "::" ++ k).data.length = 0 := by
    intro s k
    simp [data_append]
  refine ⟨?_, ?_, ?_⟩
  · intro env c s k r hs hk
    rw [getData, getData, if_neg (hlen2 s k r), if_neg (hlenp s k)]
    rw [hsk2 s k r hs hk, hskp s k hs hk]
  · intro c v s k r hs hk
    rw [Set, Set, if_neg (hlen2 s k r), if_neg (hlenp s k)]
    rw [hsk2 s k r hs hk, hskp s k hs hk]
  · intro env c k hk hne
    have hkd : ¬ k.data.length = 0 := by
      intro h0
      apply hne
      have : k.data = [] := List.length_eq_zero.mp h0
      rw [← strMk_data k, this]
      rfl
    have h1 : splitSectionKey k = (DefaultSection, lowerS k) := by
      unfold splitSectionKey
      rw [splitColonsS_one (lowerS k) hk]
    have h2 : splitSectionKey ("default::" ++ k) = (DefaultSection, lowerS k) := by
      unfold splitSectionKey
      rw [(by rw [(by rfl : ("default::" : String) = "default" ++ "::")] :
        ("default::" ++ k : String) = "default" ++ "::" ++ k)]
      rw [hlowpair, (by decide : lowerS "default" = "default")]
      rw [splitColonsS_pair "default" (lowerS k) (by decide) hk]
      rfl
    have hlend : ¬ ("default::" ++ k).data.length = 0 := by
      simp [data_append]
    rw [getData, getData, if_neg hkd, if_neg hlend, h1, h2]

/-- C5 amended witness: on a concrete container, `a::b::c` and `a::b`
address the same entry, and a bare key addresses the `default` section. -/
theorem C5_split_amended_witness :
    getData env0 NewConfig ("a" ++ "::" ++ "b" ++ "::" ++ "c")
      = getData env0 NewConfig ("a" ++ "::" ++ "b")
    ∧ getData env0 NewConfig "k" = getData env0 NewConfig ("default::" ++ "k") :=
  ⟨C5_split_amended.1 env0 NewConfig "a" "b" "c" (by decide) (by decide),
   C5_split_amended.2.2 env0 NewConfig "k" (by decide) (by decide)⟩

/-! ## C4 amended: what Merge shares and what it mutates -/

/-- C4 amended: for a section present in both inputs, `Merge` returns a
container that shares the first input's entry-map address, and it writes
the second input's keys through that address, so the first input observes
the overlaid contents after the call; the second input's contents are
untouched. -/
theorem C4_merge_amended (k1 k2 : String) (e1 e2 : entry) (hk : k1 ≠ k2) :
    readSection (Merge (mergeHeapPair k1 k2 e1 e2) (some refA) (some refB)).1 refA "s"
      = some [(k1, e1), (k2, e2)]
    ∧ readSection (Merge (mergeHeapPair k1 k2 e1 e2) (some refA) (some refB)).1 refB "s"
      = readSection (mergeHeapPair k1 k2 e1 e2) refB "s"
    ∧ (Merge (mergeHeapPair k1 k2 e1 e2) (some refA) (some refB)).2 = some refA := by
  refine ⟨?_, ?_, ?_⟩ <;>
    simp [Merge, mergeHeapPair, refA, refB, readSection, heapGet, heapInsertAt,
      alFind, alInsert, hk, List.getD]

/-- C4 amended witness: merging `s.k1=1` with `s.k2=2` leaves `k2` visible
through the first input's map while the second input is unchanged. -/
theorem C4_merge_amended_witness :
    readSection (Merge (mergeHeapPair "k1" "k2" entryK1 entryK2) (some refA) (some refB)).1
        refA "s" = some [("k1", entryK1), ("k2", entryK2)]
    ∧ readSection (Merge (mergeHeapPair "k1" "k2" entryK1 entryK2) (some refA) (some refB)).1
        refB "s" = readSection (mergeHeapPair "k1" "k2" entryK1 entryK2) refB "s"
    ∧ (Merge (mergeHeapPair "k1" "k2" entryK1 entryK2) (some refA) (some refB)).2
        = some refA :=
  C4_merge_amended "k1" "k2" entryK1 entryK2 (by decide)

/-! ## C8: splitting a key-value line on the first equals sign -/

/-- C8: a trimmed non-blank, non-comment, non-section line whose text is
`before=after` with no `=` inside `before` is split at that first `=`: the
stored key is the lower-cased trim of `before` and the stored value is the
trim of `after` (quote-stripped only when it starts with a double quote),
even when `after` contains further `=` signs; in particular `a=b=c` stores
key `a` with value `b=c`. -/
theorem C8_first_equals_split :
    (∀ env fs dir pf st rawLine (before after : List Char),
      trimS rawLine = strMk (before ++ '=' :: after) →
      '=' ∉ before →
      leadsWithS "#" (strMk (before ++ '=' :: after)) = false →
      leadsWithS ";" (strMk (before ++ '=' :: after)) = false →
      (leadsWithS "[" (strMk (before ++ '=' :: after))
        && trailsWithS "]" (strMk (before ++ '=' :: after))) = false →
      parseLoopCore env fs dir pf [rawLine] st =
        Except.ok { st with
          values := valuesInsert st.values st.sectionName
            (lowerS (trimS (strMk before)))
            { sectionName := st.sectionName,
              key := lowerS (trimS (strMk before)),
              value := stripValueQuotes (trimS (strMk after)),
              env := if isValueEnv (stripValueQuotes (trimS (strMk after)))
                     then (ParseValueEnv env (stripValueQuotes (trimS (strMk after)))).1
                     else "",
              comment := st.comment },
          comment := "" })
    ∧ (match parseDataGo env0 fs0 1 "a=b=c" "default" "." with
       | Except.ok c => getData env0 c "a"
       | Except.error _ => "ABORTED") = "b=c" := by
  constructor
  · intro env fs dir pf st rawLine before after htrim hno h1 h2 h3
    have hne : ¬ (strMk (before ++ '=' :: after)) = "" := by
      intro h0
      have h0d : before ++ '=' :: after = ([] : List Char) := congrArg String.data h0
      simp at h0d
    have hsplit : splitN2S (strMk (before ++ '=' :: after)) "="
        = [strMk before, strMk after] := by
      unfold splitN2S
      rw [data_strMk, (rfl : ("=").data = ['=']), findSplit_single '=' before after hno]
    simp only [parseLoopCore]
    rw [htrim]
    simp [hne, h1, h2, h3, hsplit, parseLoopCore, includeStep]
  · decide

/-- C8 witness: processing the single line `a=b=c` stores key `a` with
value `b=c`. -/
theorem C8_first_equals_split_witness :
    parseLoopCore env0 fs0 "." pf0 ["a=b=c"] pst0 =
      Except.ok { pst0 with
        values := valuesInsert pst0.values pst0.sectionName
          (lowerS (trimS (strMk ['a'])))
          { sectionName := pst0.sectionName,
            key := lowerS (trimS (strMk ['a'])),
            value := stripValueQuotes (trimS (strMk ['b', '=', 'c'])),
            env := if isValueEnv (stripValueQuotes (trimS (strMk ['b', '=', 'c'])))
                   then (ParseValueEnv env0 (stripValueQuotes (trimS (strMk ['b', '=', 'c'])))).1
                   else "",
            comment := pst0.comment },
        comment := "" } :=
  C8_first_equals_split.1 env0 fs0 "." pf0 pst0 "a=b=c" ['a'] ['b', '=', 'c']
    (by decide) (by decide) (by decide) (by decide) (by decide)

/-! ## C3 amended: which operations lower-case their stored names -/

theorem IsLowerStr_lowerS (s : String) : IsLowerStr (lowerS s) := lowerS_idem s

theorem entriesLower_alInsert {es : entries} {key : String} {ev : entry}
    (hes : ∀ q ∈ es, IsLowerStr q.1) (hk : IsLowerStr key) :
    ∀ q ∈ alInsert es key ev, IsLowerStr q.1 := by
  intro q hq
  rcases mem_alInsert hq with h | h
  · rw [h]
    exact hk
  · exact hes q h

theorem LowerInv_valuesInsert {vs : valuesMap} {sec key : String} {ev : entry}
    (hinv : LowerInv vs) (hs : IsLowerStr sec) (hk : IsLowerStr key) :
    LowerInv (valuesInsert vs sec key ev) := by
  unfold valuesInsert
  cases heq : alFind vs sec with
  | none =>
    intro p hp
    rcases mem_alInsert hp with h | h
    · rw [h]
      exact ⟨hs, entriesLower_alInsert (fun q hq => absurd hq (List.not_mem_nil q)) hk⟩
    · exact hinv p h
  | some es =>
    intro p hp
    rcases mem_alInsert hp with h | h
    · rw [h]
      exact ⟨hs, entriesLower_alInsert (fun q hq => (hinv (sec, es) (alFind_mem heq)).2 q hq) hk⟩
    · exact hinv p h

theorem foldl_inv {α β : Type} (C : β → Prop) (f : β → α → β) :
    ∀ (l : List α) (b : β), C b → (∀ x ∈ l, ∀ acc, C acc → C (f acc x)) →
      C (List.foldl f b l) := by
  intro l
  induction l with
  | nil =>
    intro b hb _
    exact hb
  | cons x xs ih =>
    intro b hb hstep
    rw [List.foldl_cons]
    exact ih (f b x) (hstep x (List.mem_cons_self x xs) b hb)
      (fun y hy acc hacc => hstep y (List.mem_cons_of_mem x hy) acc hacc)

theorem LowerInv_mergeValues {a b : valuesMap} (ha : LowerInv a) (hb : LowerInv b) :
    LowerInv (mergeValues a b) := by
  unfold mergeValues
  refine foldl_inv LowerInv _ b a ha ?_
  intro kv hkv acc hacc
  cases heq : alFind acc kv.1 with
  | none =>
    intro p hp
    rcases mem_alInsert hp with h | h
    · rw [h]
      exact hb kv hkv
    · exact hacc p h
  | some es =>
    intro p hp
    rcases mem_alInsert hp with h | h
    · rw [h]
      refine ⟨(hb kv hkv).1, ?_⟩
      show ∀ q ∈ kv.2.foldl (fun es2 e => alInsert es2 e.1 e.2) es, IsLowerStr q.1
      refine foldl_inv (fun es2 => ∀ q ∈ es2, IsLowerStr q.1) _ kv.2 es
        (fun q hq => (hacc (kv.1, es) (alFind_mem heq)).2 q hq) ?_
      intro e he es2 hes2
      exact entriesLower_alInsert hes2 ((hb kv hkv).2 e he)
    · exact hacc p h

theorem includeStep_inv (fs : Fs) (dir : String)
    (pf : String → String → Except String IniContainer)
    (kv : List String) (key : String) (st : PState)
    (hpf : ∀ path s r, IsLowerStr s → pf path s = Except.ok r → LowerInv r.values)
    (hsec : IsLowerStr st.sectionName) (hinv : LowerInv st.values) :
    (includeStep fs dir pf kv key st).1.sectionName = st.sectionName
    ∧ LowerInv (includeStep fs dir pf kv key st).1.values := by
  unfold includeStep
  split
  · split
    · split
      · exact ⟨rfl, hinv⟩
      · split
        · exact ⟨rfl, hinv⟩
        · next paths hw =>
            refine foldl_inv
              (fun acc => acc.sectionName = st.sectionName ∧ LowerInv acc.values)
              _ paths st ⟨rfl, hinv⟩ ?_
            intro path hpath acc hacc
            split
            · split
              · next ini heq =>
                  exact ⟨hacc.1, LowerInv_mergeValues hacc.2
                    (hpf path acc.sectionName ini (by rw [hacc.1]; exact hsec) heq)⟩
              · exact hacc
            · exact hacc
      · split
        · next ini heq =>
            exact ⟨rfl, LowerInv_mergeValues hinv (hpf _ st.sectionName ini hsec heq)⟩
        · exact ⟨rfl, hinv⟩
    · exact ⟨rfl, hinv⟩
  · exact ⟨rfl, hinv⟩

theorem parseLoopCore_lower (env : String → String) (fs : Fs) (dir : String)
    (pf : String → String → Except String IniContainer)
    (hpf : ∀ path s r, IsLowerStr s → pf path s = Except.ok r → LowerInv r.values) :
    ∀ (lines : List String) (st res : PState),
      IsLowerStr st.sectionName → LowerInv st.values →
      parseLoopCore env fs dir pf lines st = Except.ok res →
      LowerInv res.values := by
  intro lines
  induction lines with
  | nil =>
    intro st res hsec hinv h
    rw [parseLoopCore] at h
    cases h
    exact hinv
  | cons rawLine rest ih =>
    intro st res hsec hinv h
    rw [parseLoopCore] at h
    simp only [] at h
    split at h
    · exact ih st res hsec hinv h
    · split at h
      · refine ih _ res ?_ ?_ h
        · exact hsec
        · exact hinv
      · split at h
        · refine ih _ res ?_ ?_ h
          · exact IsLowerStr_lowerS _
          · exact hinv
        · obtain ⟨hsn, hiv⟩ := includeStep_inv fs dir pf (splitN2S (trimS rawLine) "=")
            (lowerS (trimS ((splitN2S (trimS rawLine) "=").headD ""))) st hpf hsec hinv
          split at h
          · refine ih _ res ?_ ?_ h
            · rw [hsn]
              exact hsec
            · exact hiv
          · split at h
            · cases h
            · refine ih _ res ?_ ?_ h
              · show IsLowerStr
                  (includeStep fs dir pf (splitN2S (trimS rawLine) "=")
                    (lowerS (trimS ((splitN2S (trimS rawLine) "=").headD ""))) st).1.sectionName
                rw [hsn]
                exact hsec
              · refine LowerInv_valuesInsert hiv ?_ (IsLowerStr_lowerS _)
                rw [hsn]
                exact hsec

theorem parseDataGo_lower (env : String → String) (fs : Fs) :
    ∀ (fuel : Nat) (data sec dir : String) (c : IniContainer),
      IsLowerStr sec → parseDataGo env fs fuel data sec dir = Except.ok c →
      LowerInv c.values := by
  intro fuel
  induction fuel with
  | zero =>
    intro data sec dir c hsec h
    rw [parseDataGo] at h
    cases h
  | succ k ih =>
    intro data sec dir c hsec h
    rw [parseDataGo] at h
    simp only [] at h
    split at h
    · cases h
    · split at h
      · cases h
      · next st heq =>
          cases h
          refine parseLoopCore_lower env fs dir _ ?_ _ _ _ hsec
            (fun p hp => absurd hp (List.not_mem_nil p)) heq
          intro path s r hs hok
          cases hread : fs.readFile path with
          | none =>
            rw [hread] at hok
            cases hok
          | some d =>
            rw [hread] at hok
            exact ih d s (dirOf path) r hs hok

theorem splitColAux_chars : ∀ (n : Nat) (l acc : List Char), l.length ≤ n →
    ∀ piece ∈ splitColAux l acc, ∀ c ∈ piece, c ∈ l ∨ c ∈ acc := by
  intro n
  induction n with
  | zero =>
    intro l acc hlen piece hp c hc
    have hl : l = [] := List.length_eq_zero.mp (Nat.le_zero.mp hlen)
    subst hl
    rw [splitColAux] at hp
    simp at hp
    right
    rw [hp] at hc
    exact List.mem_reverse.mp hc
  | succ k ihn =>
    intro l acc hlen piece hp c hc
    match l with
    | [] =>
      rw [splitColAux] at hp
      simp at hp
      right
      rw [hp] at hc
      exact List.mem_reverse.mp hc
    | [x] =>
      rw [splitColAux] at hp
      simp at hp
      rw [hp] at hc
      rcases List.mem_append.mp hc with h | h
      · right
        exact List.mem_reverse.mp h
      · left
        simp at h
        simp [h]
    | x :: y :: restl =>
      rw [splitColAux] at hp
      split at hp
      · rcases List.mem_cons.mp hp with h | h
        · rw [h] at hc
          right
          exact List.mem_reverse.mp hc
        · have hrest : restl.length ≤ k := by
            have := hlen
            simp at this
            omega
          rcases ihn restl [] hrest piece h c hc with h2 | h2
          · left
            simp [h2]
          · cases h2
      · have hlen2 : (y :: restl).length ≤ k := by
          have := hlen
          simp at this
          simp
          omega
        rcases ihn (y :: restl) (x :: acc) hlen2 piece hp c hc with h2 | h2
        · left
          simp
          rcases List.mem_cons.mp h2 with h3 | h3
          · right
            left
            exact h3
          · right
            right
            exact h3
        · rcases List.mem_cons.mp h2 with h3 | h3
          · left
            simp [h3]
          · right
            exact h3

theorem map_lowerChar_fix {l : List Char} (h : ∀ c ∈ l, lowerChar c = c) :
    l.map lowerChar = l := by
  induction l with
  | nil => rfl
  | cons x xs ih =>
    rw [List.map_cons, h x (List.mem_cons_self x xs),
      ih (fun c hc => h c (List.mem_cons_of_mem x hc))]

theorem IsLowerStr_of_mem_splitColons (key p : String)
    (hp : p ∈ splitColonsS (lowerS key)) : IsLowerStr p := by
  unfold splitColonsS at hp
  rcases List.mem_map.mp hp with ⟨piece, hpiece, hmk⟩
  have hchars : ∀ c ∈ piece, c ∈ (lowerS key).data ∨ c ∈ ([] : List Char) :=
    splitColAux_chars (lowerS key).data.length (lowerS key).data [] (Nat.le_refl _)
      piece hpiece
  have hfix : ∀ c ∈ piece, lowerChar c = c := by
    intro c hcm
    rcases hchars c hcm with h | h
    · unfold lowerS strMk at h
      rcases List.mem_map.mp h with ⟨d, _, hd⟩
      rw [← hd]
      exact lowerChar_idem d
    · cases h
  rw [← hmk]
  unfold IsLowerStr lowerS
  rw [data_strMk, map_lowerChar_fix hfix]

theorem splitSectionKey_lower (key : String) :
    IsLowerStr (splitSectionKey key).1 ∧ IsLowerStr (splitSectionKey key).2 := by
  unfold splitSectionKey
  cases hq : splitColonsS (lowerS key) with
  | nil => exact ⟨by decide, by decide⟩
  | cons s0 tail =>
    cases tail with
    | nil =>
      constructor
      · show IsLowerStr DefaultSection
        decide
      · show IsLowerStr s0
        exact IsLowerStr_of_mem_splitColons key s0 (by rw [hq]; exact List.mem_cons_self _ _)
    | cons k1 restl =>
      constructor
      · show IsLowerStr s0
        exact IsLowerStr_of_mem_splitColons key s0 (by rw [hq]; exact List.mem_cons_self _ _)
      · show IsLowerStr k1
        refine IsLowerStr_of_mem_splitColons key k1 ?_
        rw [hq]
        exact List.mem_cons_of_mem _ (List.mem_cons_self _ _)

/-- C3 amended: parsing and `Set` store lower-cased section names and keys
(the lower-case invariant is established by parsing from scratch and
preserved by `Set`), but `AddEntry` stores the trimmed section and key
exactly as given, without case folding. -/
theorem C3_lowercase_amended :
    (∀ c key value c', LowerInv c.values → Set c key value = Except.ok c' →
      LowerInv c'.values)
    ∧ (∀ env fs fuel data sec dir c, IsLowerStr sec →
      parseDataGo env fs fuel data sec dir = Except.ok c → LowerInv c.values)
    ∧ (∀ env c secArg key value,
      ∃ es, alFind (AddEntry env c secArg key value).values
          (if trimS secArg = "" then DefaultSection else trimS secArg) = some es
        ∧ ∃ ev, alFind es (trimS key) = some ev
          ∧ ev.sectionName = (if trimS secArg = "" then DefaultSection else trimS secArg)
          ∧ ev.key = trimS key ∧ ev.value = trimS value) := by
  refine ⟨?_, ?_, ?_⟩
  · intro c key value c' hinv hset
    by_cases hk : key.data.length = 0
    · rw [Set, if_pos hk] at hset
      cases hset
    · rw [Set, if_neg hk] at hset
      cases hset
      exact LowerInv_valuesInsert hinv (splitSectionKey_lower key).1
        (splitSectionKey_lower key).2
  · intro env fs fuel data sec dir c hsec h
    exact parseDataGo_lower env fs fuel data sec dir c hsec h
  · intro env c secArg key value
    obtain ⟨es, h1, h2⟩ := alFind_valuesInsert_self c.values
      (if trimS secArg = "" then DefaultSection else trimS secArg) (trimS key)
      { sectionName := if trimS secArg = "" then DefaultSection else trimS secArg,
        key := trimS key, value := trimS value,
        env := if (ParseValueEnv env (trimS value)).1 ≠ ""
               then (ParseValueEnv env (trimS value)).1 else "",
        comment := "" }
    exact ⟨es, h1, _, h2, rfl, rfl, rfl⟩

/-- C3 amended witness: parsing `[Web]` / `PORT=8080` stores the
lower-cased section `web` and key `port`. -/
theorem C3_lowercase_amended_witness :
    LowerInv [("web", [("port",
      { sectionName := "web", key := "port", value := "8080",
        env := "", comment := "" })])] :=
  C3_lowercase_amended.2.1 env0 fs0 1 "[Web]\nPORT=8080" "default" "."
    { values := [("web", [("port",
        { sectionName := "web", key := "port", value := "8080",
          env := "", comment := "" })])],
      sectionComment := [("web", "")], endComment := "" }
    (by decide) (by decide)

/-! ## C9: lazy environment resolution at read time -/

/-- C9: reading resolves environment expressions from the stored raw value
alone.  (1) `entries.GetString` resolves any stored entry whose value is an
environment expression, whatever its `env` field holds; (2) `getData`
behaves the same for a compound key; (3) an entry written by `Set` (which
records no `env` field) still resolves at read time. -/
theorem C9_lazy_env_resolution :
    (∀ env (e : entries) key v, alFind e key = some v → isValueEnv v.value = true →
      entriesGetString env e key = (ParseValueEnv env v.value).2)
    ∧ (∀ env c key v, lookupEntry c key = some v → isValueEnv v.value = true →
      GetString env c key = (ParseValueEnv env v.value).2)
    ∧ (∀ env c key value c', Set c key value = Except.ok c' → isValueEnv value = true →
      GetString env c' key = (ParseValueEnv env value).2) := by
  refine ⟨?_, ?_, ?_⟩
  · intro env e key v hfind hval
    rw [entriesGetString, hfind]
    simp [hval]
  · intro env c key v hfind hval
    by_cases hk : key.data.length = 0
    · rw [lookupEntry, if_pos hk] at hfind
      cases hfind
    · rw [lookupEntry, if_neg hk] at hfind
      rw [GetString, getData, if_neg hk]
      cases heq : alFind c.values (splitSectionKey key).1 with
      | none =>
        rw [heq] at hfind
        cases hfind
      | some es =>
        rw [heq] at hfind
        simp at hfind
        simp [hfind, hval]
  · intro env c key value c' hset hval
    by_cases hk : key.data.length = 0
    · rw [Set, if_pos hk] at hset
      cases hset
    · rw [Set, if_neg hk] at hset
      cases hset
      obtain ⟨es, h1, h2⟩ := alFind_valuesInsert_self c.values (splitSectionKey key).1
        (splitSectionKey key).2
        { sectionName := (splitSectionKey key).1, key := (splitSectionKey key).2,
          value := value, env := "", comment := "" }
      rw [GetString, getData, if_neg hk]
      rw [h1]
      simp [h2, hval]

/-- C9 witness: a concrete `$\x7bHOME\x7d` value resolves through
`entries.GetString` although the stored `env` field is junk, and through
`GetString` after a `Set` that recorded no `env` field. -/
theorem C9_lazy_env_resolution_witness :
    entriesGetString envHome
        [("k", { sectionName := "default", key := "k", value := "$\x7bHOME\x7d",
                 env := "IGNORED", comment := "" })] "k"
      = (ParseValueEnv envHome "$\x7bHOME\x7d").2
    ∧ GetString envHome
        { values := [("default", [("k",
            { sectionName := "default", key := "k", value := "$\x7bHOME\x7d",
              env := "", comment := "" })])],
          sectionComment := [], endComment := "" } "k"
      = (ParseValueEnv envHome "$\x7bHOME\x7d").2 := by
  constructor
  · exact C9_lazy_env_resolution.1 envHome
      [("k", { sectionName := "default", key := "k", value := "$\x7bHOME\x7d",
               env := "IGNORED", comment := "" })] "k"
      { sectionName := "default", key := "k", value := "$\x7bHOME\x7d",
        env := "IGNORED", comment := "" } (by decide) (by decide)
  · exact C9_lazy_env_resolution.2.2 envHome NewConfig "k" "$\x7bHOME\x7d"
      { values := [("default", [("k",
          { sectionName := "default", key := "k", value := "$\x7bHOME\x7d",
            env := "", comment := "" })])],
        sectionComment := [], endComment := "" } (by decide) (by decide)

/-! ## C10: absent keys and empty stored values agree at the accessors -/

/-- C10: `GetString` returns `""` when the addressed key is absent and also
when it is present with the empty stored value; `DefaultString` therefore
falls back in both situations. -/
theorem C10_absent_and_empty_agree :
    (∀ env c key, lookupEntry c key = none → GetString env c key = "")
    ∧ (∀ env c key v, lookupEntry c key = some v → v.value = "" →
      GetString env c key = "")
    ∧ (∀ env c key fb, GetString env c key = "" → DefaultString env c key fb = fb)
    ∧ (∀ env c key v fb, lookupEntry c key = some v → v.value = "" →
      DefaultString env c key fb = fb) := by
  have h1 : ∀ env (c : IniContainer) key, lookupEntry c key = none →
      GetString env c key = "" := by
    intro env c key hfind
    by_cases hk : key.data.length = 0
    · rw [GetString, getData, if_pos hk]
    · rw [lookupEntry, if_neg hk] at hfind
      rw [GetString, getData, if_neg hk]
      cases heq : alFind c.values (splitSectionKey key).1 with
      | none => simp
      | some es =>
        rw [heq] at hfind
        simp at hfind
        simp [hfind]
  have h2 : ∀ env (c : IniContainer) key v, lookupEntry c key = some v → v.value = "" →
      GetString env c key = "" := by
    intro env c key v hfind hv
    by_cases hk : key.data.length = 0
    · rw [GetString, getData, if_pos hk]
    · rw [lookupEntry, if_neg hk] at hfind
      rw [GetString, getData, if_neg hk]
      cases heq : alFind c.values (splitSectionKey key).1 with
      | none =>
        rw [heq] at hfind
      | some es =>
        rw [heq] at hfind
        simp at hfind
        simp [hfind, hv, (by decide : isValueEnv "" = false)]
  have h3 : ∀ env (c : IniContainer) key fb, GetString env c key = "" →
      DefaultString env c key fb = fb := by
    intro env c key fb h
    rw [DefaultString, h]
    simp
  exact ⟨h1, h2, h3, fun env c key v fb hf hv => h3 env c key fb (h2 env c key v hf hv)⟩

/-- C10 witness: a key stored with the empty value makes `GetString` return
`""` and `DefaultString` return the fallback. -/
theorem C10_absent_and_empty_agree_witness :
    DefaultString env0
      { values := [("default", [("k",
          { sectionName := "default", key := "k", value := "", env := "", comment := "" })])],
        sectionComment := [], endComment := "" } "k" "fallback" = "fallback" :=
  C10_absent_and_empty_agree.2.2.2 env0
    { values := [("default", [("k",
        { sectionName := "default", key := "k", value := "", env := "", comment := "" })])],
      sectionComment := [], endComment := "" } "k"
    { sectionName := "default", key := "k", value := "", env := "", comment := "" }
    "fallback" (by decide) (by decide)

end Goini
